import Mathlib

/-!
Verification development for the Arx compiler front-end (pyarx).

Shallow embedding of:
* the token model and the indentation-sensitive lexer
  (`src/arx/lexer.py`; the `TokenKind`/`TokenList`-based lexer demanded by
  `parser.py` and `tests/test_lexer.py` is absent from the sources, so the
  indentation behaviour is modelled from the spec, while the keyword table
  follows the `gettok` chain that is present in `src/arx/lexer.py`),
* the character buffer (`src/arx/io.py`),
* the recursive-descent parser (`src/arx/parser.py`),
* the object-code lowering visitor (`src/arx/codegen/file_object.py`).

Python floats are modelled as rationals (the inputs exercised here are
exact), machine strings as `String`, and the fallible Python control flow
as `Except`-valued functions with explicit fuel for recursion.
-/

namespace Arx

/-! ## Tokens

`Token` mirrors the dataclass used by `parser.py` and the lexer tests:
a kind plus a value whose type depends on the kind (string for
identifiers/operators/keywords, number for float literals, count for
indentation).  Equality compares kind and value; source locations are not
consulted by any of the verified properties and are omitted. -/

inductive TokenKind where
  | eof
  | identifier
  | float_literal
  | indent
  | operator
  | kw_function
  | kw_external
  | kw_return
  | kw_if
  | kw_else
  | kw_for
  | kw_in
  | kw_binary
  | kw_unary
  | kw_var
  | kw_const
  | not_initialized
  deriving DecidableEq, BEq, Repr

inductive TokenValue where
  | str (s : String)
  | num (q : ℚ)
  | count (n : ℕ)
  deriving DecidableEq, BEq, Repr

structure Token where
  kind : TokenKind
  value : TokenValue
  deriving DecidableEq, BEq, Repr

def eofTok : Token := ⟨.eof, .str ""⟩
def identTok (s : String) : Token := ⟨.identifier, .str s⟩
def floatTok (q : ℚ) : Token := ⟨.float_literal, .num q⟩
def indentTok (n : ℕ) : Token := ⟨.indent, .count n⟩
def opTok (s : String) : Token := ⟨.operator, .str s⟩

/-! ## Lexer

Character classes follow `is_identifier_first_char` / `is_identifier_char`
(`lexer.py` lines 4-35) restricted to ASCII, and the whitespace handling of
`gettok`. -/

def isIdentFirst (c : Char) : Bool := c.isAlpha || c = '_'

def isIdentChar (c : Char) : Bool := c.isAlphanum || c = '_'

def isNumChar (c : Char) : Bool := c.isDigit || c = '.'

def isNewline (c : Char) : Bool := c = '\n' || c = '\r'

def isBlankChar (c : Char) : Bool := c = ' ' || c = '\t'

/-- Keyword table of `gettok` (`lexer.py` lines 208-228): the chain checks
`fn`, `return`, `extern`, `if`, `else`, `for`, `in`, `binary`, `unary`,
`var` and falls through to an identifier token.  There is no `const`
branch. -/
def keywordToken (s : String) : Token :=
  if s = "fn" then ⟨.kw_function, .str s⟩
  else if s = "return" then ⟨.kw_return, .str s⟩
  else if s = "extern" then ⟨.kw_external, .str s⟩
  else if s = "if" then ⟨.kw_if, .str s⟩
  else if s = "else" then ⟨.kw_else, .str s⟩
  else if s = "for" then ⟨.kw_for, .str s⟩
  else if s = "in" then ⟨.kw_in, .str s⟩
  else if s = "binary" then ⟨.kw_binary, .str s⟩
  else if s = "unary" then ⟨.kw_unary, .str s⟩
  else if s = "var" then ⟨.kw_var, .str s⟩
  else ⟨.identifier, .str s⟩

def digitsToNat (l : List Char) : ℕ :=
  l.foldl (fun a c => a * 10 + (c.toNat - 48)) 0

/-- Value of a `[0-9.]+` lexeme, as `float(num_str)` computes it for the
well-formed inputs (integer part, optional single dot, fraction part). -/
def parseFloatLexeme (l : List Char) : ℚ :=
  let intPart := l.takeWhile (fun c => c ≠ '.')
  let rest := l.dropWhile (fun c => c ≠ '.')
  let fracPart := (rest.drop 1).takeWhile Char.isDigit
  (digitsToNat intPart : ℚ) + (digitsToNat fracPart : ℚ) / (10 : ℚ) ^ fracPart.length

/-- Count of leading spaces together with the remaining input. -/
def takeSpaces (l : List Char) : ℕ × List Char :=
  ((l.takeWhile (fun c => c = ' ')).length, l.dropWhile (fun c => c = ' '))

theorem length_dropWhile_add (p : Char → Bool) (l : List Char) :
    (l.takeWhile p).length + (l.dropWhile p).length = l.length := by
  conv_rhs => rw [← List.takeWhile_append_dropWhile p l]
  rw [List.length_append]

theorem length_dropWhile_le (p : Char → Bool) (l : List Char) :
    (l.dropWhile p).length ≤ l.length := by
  have := length_dropWhile_add p l
  omega

/-- Modelled from the spec: the token-producing loop of the
`TokenKind`-based lexer (`Lexer.lex`), which is imported by `parser.py`
and exercised by `tests/test_lexer.py` but absent from the sources.
Spec §4.2: at the start of each logical line read consecutive spaces and,
if a non-blank character follows, emit `Indent(count)` (no token for an
unindented or blank line, matching `tests/test_lexer.py::test_get_tok`);
mid-line whitespace is skipped; identifiers are matched against the
keyword table; `[0-9.]+` becomes a float literal; `#` comments run to end
of line; any other character is an operator token; EOF terminates the
stream with an EOF token. -/
def lexLoop (input : List Char) (atStart : Bool) : List Token :=
  if atStart then
    let rest := input.dropWhile (fun c => c = ' ')
    if rest.isEmpty then [eofTok]
    else if isNewline (rest.headD ' ') then lexLoop rest.tail true
    else
      let k := (input.takeWhile (fun c => c = ' ')).length
      if k > 0 then indentTok k :: lexLoop rest false
      else lexLoop rest false
  else
    match input with
    | [] => [eofTok]
    | c :: cs =>
      if isNewline c then lexLoop cs true
      else if isBlankChar c then lexLoop cs false
      else if isIdentFirst c then
        keywordToken (String.mk ((c :: cs).takeWhile isIdentChar)) ::
          lexLoop ((c :: cs).dropWhile isIdentChar) false
      else if isNumChar c then
        floatTok (parseFloatLexeme ((c :: cs).takeWhile isNumChar)) ::
          lexLoop ((c :: cs).dropWhile isNumChar) false
      else if c = '#' then
        lexLoop (cs.dropWhile (fun d => ¬ isNewline d)) false
      else
        opTok (String.mk [c]) :: lexLoop cs false
termination_by (input.length, if atStart then 1 else 0)
decreasing_by
  all_goals simp_wf
  · -- blank line: the newline is consumed
    rename_i hAt hne hnl
    have hd := length_dropWhile_add (fun c => decide (c = ' ')) input
    have hpos : (List.dropWhile (fun c => decide (c = ' ')) input) ≠ [] := by
      intro h
      apply hne
      show (List.dropWhile (fun c => decide (c = ' ')) input).isEmpty = true
      rw [h]
      rfl
    have := List.length_pos.mpr hpos
    exact Prod.Lex.left _ _ (by omega)
  · -- line body: spaces consumed, or the line-start flag drops
    rename_i hAt hne hnl
    have hd := length_dropWhile_add (fun c => decide (c = ' ')) input
    rcases Nat.lt_or_ge (List.dropWhile (fun c => decide (c = ' ')) input).length
        input.length with h | h
    · exact Prod.Lex.left _ _ h
    · have he : (List.dropWhile (fun c => decide (c = ' ')) input).length
          = input.length := by omega
      have h2 : (if atStart = true then 1 else 0) = 1 := by simp [hAt]
      rw [h2, ← he]
      exact Prod.Lex.right _ Nat.zero_lt_one
  · exact Prod.Lex.left _ _ (Nat.lt_succ_self _)
  · exact Prod.Lex.left _ _ (Nat.lt_succ_self _)
  · -- identifier lexeme consumes at least its first character
    rename_i hid
    have hc : isIdentChar c = true := by
      simp only [isIdentFirst, Bool.or_eq_true] at hid
      rcases hid with h | h
      · simp [isIdentChar, Char.isAlphanum, h]
      · simp [isIdentChar, h]
    have hle := length_dropWhile_le isIdentChar cs
    exact Prod.Lex.left _ _ (by simp [List.dropWhile_cons, hc]; omega)
  · -- number lexeme consumes at least its first character
    rename_i hnum
    have hle := length_dropWhile_le isNumChar cs
    exact Prod.Lex.left _ _ (by simp [List.dropWhile_cons, hnum]; omega)
  · -- comment consumes the hash character
    have hle := length_dropWhile_le (fun d => !isNewline d) cs
    exact Prod.Lex.left _ _ (by omega)
  · exact Prod.Lex.left _ _ (Nat.lt_succ_self _)

/-- Lex a whole source string (`Lexer.lex`), starting in line-start mode. -/
def lexString (s : String) : List Token := lexLoop s.data true

/-! ## AST

The node shapes are those constructed by `parser.py` (the `BlockAST`-based
`ast` module it imports is absent from the sources; every constructor below
is read off the `ast.XxxAST(...)` calls in `parser.py` and the field
accesses in `tests/test_parser.py`).  Blocks are node lists; source
locations are omitted (see the token model). -/

structure Param where
  name : String
  typeName : String
  deriving DecidableEq, Repr

structure Prototype where
  name : String
  typeName : String
  args : List Param
  deriving DecidableEq, Repr

inductive Expr where
  | floatE (val : ℚ)
  | varE (name : String) (typeName : String)
  | unaryE (op : String) (operand : Expr)
  | binaryE (op : String) (lhs rhs : Expr)
  | callE (callee : String) (args : List Expr)
  | ifE (cond : Expr) (thenB : List Expr) (elseB : List Expr)
  | forE (varName : String) (startE endE stepE : Expr) (body : List Expr)
  | varDeclE (vars : List (String × Expr)) (typeName : String) (body : Expr)
  | protoE (p : Prototype)
  | functionE (proto : Prototype) (body : List Expr)
  | returnE (value : Expr)
  | blockE (nodes : List Expr)
  deriving Repr

/-- The `step` field of a `ForStmtAST`, if the node is one. -/
def Expr.stepOf : Expr → Option Expr
  | .forE _ _ _ s _ => some s
  | _ => none

/-! ## Parser

State of `Parser` (`parser.py`): the token cursor (`TokenList.cur_tok`
plus the not-yet-consumed tokens; `get_next_token` past the end yields
`EOF` forever, per spec §4.3 — `TokenList` itself is absent from the
sources) and the mutable `indent_level` attribute.  `INDENT_SIZE = 2`.
Failures mirror the `ParserException`/`Exception` raises; `typeConfusion`
stands for the `TypeError` CPython raises when a token payload of the
wrong shape reaches an `int` comparison (no lexer-produced token stream
triggers it). -/

structure PState where
  cur : Token
  rest : List Token
  indentLevel : ℤ
  deriving DecidableEq, Repr

def getNextToken (st : PState) : PState :=
  match st.rest with
  | [] => { st with cur := eofTok }
  | t :: ts => { cur := t, rest := ts, indentLevel := st.indentLevel }

inductive ParseErr where
  | unknownToken
  | noNewBlock
  | indentationNotAllowed
  | expectedColon
  | expectedParenOpen
  | expectedParenClose
  | expectedArgSep
  | expectedIdentifier
  | expectedEq
  | expectedComma
  | expectedIn
  | typeConfusion
  | outOfFuel
  deriving DecidableEq, Repr

/-- The `bin_op_precedence` table set up in `Parser.__init__`. -/
def binOpPrecedence (s : String) : Option ℤ :=
  if s = "=" then some 2
  else if s = "<" then some 10
  else if s = ">" then some 10
  else if s = "+" then some 20
  else if s = "-" then some 20
  else if s = "*" then some 40
  else none

/-- `Parser.get_tok_precedence`: `bin_op_precedence.get(cur_tok.value, -1)`;
a non-string token value never equals a string key, so it defaults. -/
def getTokPrecedence (t : Token) : ℤ :=
  match t.value with
  | .str s => (binOpPrecedence s).getD (-1)
  | _ => -1

mutual

/-- `Parser.parse_expression`. -/
def parseExpression (fuel : ℕ) (st : PState) : Except ParseErr (Expr × PState) :=
  match fuel with
  | 0 => .error .outOfFuel
  | n + 1 => do
    let (lhs, st) ← parseUnary n st
    parseBinOpRhs n 0 lhs st

/-- `Parser.parse_unary`. -/
def parseUnary (fuel : ℕ) (st : PState) : Except ParseErr (Expr × PState) :=
  match fuel with
  | 0 => .error .outOfFuel
  | n + 1 =>
    if st.cur.kind ≠ .operator ∨ st.cur.value = .str "(" ∨ st.cur.value = .str "," then
      parsePrimary n st
    else
      match st.cur.value with
      | .str opCode => do
        let st := getNextToken st
        let (operand, st) ← parseUnary n st
        .ok (.unaryE opCode operand, st)
      | _ => .error .typeConfusion

/-- `Parser.parse_primary` dispatch. -/
def parsePrimary (fuel : ℕ) (st : PState) : Except ParseErr (Expr × PState) :=
  match fuel with
  | 0 => .error .outOfFuel
  | n + 1 =>
    if st.cur.kind = .identifier then parseIdentifierExpr n st
    else if st.cur.kind = .float_literal then parseFloatExpr st
    else if st.cur = opTok "(" then parseParenExpr n st
    else if st.cur.kind = .kw_if then parseIfStmt n st
    else if st.cur.kind = .kw_for then parseForStmt n st
    else if st.cur.kind = .kw_var then parseVarExpr n st
    else if st.cur = opTok ";" then parsePrimary n (getNextToken st)
    else if st.cur.kind = .kw_return then parseReturnFunction n st
    else if st.cur.kind = .indent then do
      let (nodes, st) ← parseBlock n st
      .ok (.blockE nodes, st)
    else .error .unknownToken

/-- `Parser.parse_identifier_expr`: a variable reference, or a call when
followed by `(`. -/
def parseIdentifierExpr (fuel : ℕ) (st : PState) : Except ParseErr (Expr × PState) :=
  match fuel with
  | 0 => .error .outOfFuel
  | n + 1 =>
    match st.cur.value with
    | .str idName =>
      let st := getNextToken st
      if st.cur ≠ opTok "(" then .ok (.varE idName "float", st)
      else do
        let st := getNextToken st
        let (args, st) ←
          if st.cur ≠ opTok ")" then parseCallArgs n st []
          else .ok ([], st)
        .ok (.callE idName args, getNextToken st)
    | _ => .error .typeConfusion

/-- The argument loop inside `parse_identifier_expr`. -/
def parseCallArgs (fuel : ℕ) (st : PState) (acc : List Expr) :
    Except ParseErr (List Expr × PState) :=
  match fuel with
  | 0 => .error .outOfFuel
  | n + 1 => do
    let (arg, st) ← parseExpression n st
    let acc := acc ++ [arg]
    if st.cur = opTok ")" then .ok (acc, st)
    else if st.cur ≠ opTok "," then .error .expectedArgSep
    else parseCallArgs n (getNextToken st) acc

/-- `Parser.parse_float_expr`. -/
def parseFloatExpr (st : PState) : Except ParseErr (Expr × PState) :=
  match st.cur.value with
  | .num q => .ok (.floatE q, getNextToken st)
  | _ => .error .typeConfusion

/-- `Parser.parse_paren_expr`. -/
def parseParenExpr (fuel : ℕ) (st : PState) : Except ParseErr (Expr × PState) :=
  match fuel with
  | 0 => .error .outOfFuel
  | n + 1 => do
    let st := getNextToken st
    let (e, st) ← parseExpression n st
    if st.cur ≠ opTok ")" then .error .expectedParenClose
    else .ok (e, getNextToken st)

/-- `Parser.parse_block` (lines 149-181): read the indent count, eat the
token, error if the count equals `indent_level`, parse the loop when it is
greater, and in every non-error exit subtract `INDENT_SIZE` from
`indent_level`. -/
def parseBlock (fuel : ℕ) (st : PState) : Except ParseErr (List Expr × PState) :=
  match fuel with
  | 0 => .error .outOfFuel
  | n + 1 =>
    match st.cur.value with
    | .count curIndent =>
      let st := getNextToken st
      if (curIndent : ℤ) = st.indentLevel then .error .noNewBlock
      else if (curIndent : ℤ) > st.indentLevel then do
        let st := { st with indentLevel := (curIndent : ℤ) }
        let (nodes, st) ← parseBlockLoop n curIndent st []
        .ok (nodes, { st with indentLevel := st.indentLevel - 2 })
      else
        .ok ([], { st with indentLevel := st.indentLevel - 2 })
    | _ => .error .typeConfusion

/-- The expression loop inside `parse_block`. -/
def parseBlockLoop (fuel : ℕ) (curIndent : ℕ) (st : PState) (acc : List Expr) :
    Except ParseErr (List Expr × PState) :=
  match fuel with
  | 0 => .error .outOfFuel
  | n + 1 => do
    let (e, st) ← parseExpression n st
    let acc := acc ++ [e]
    if st.cur.kind ≠ .indent then .ok (acc, st)
    else
      match st.cur.value with
      | .count newIndent =>
        if newIndent < curIndent then .ok (acc, st)
        else if newIndent > curIndent then .error .indentationNotAllowed
        else parseBlockLoop n curIndent (getNextToken st) acc
      | _ => .error .typeConfusion

/-- `Parser.parse_if_stmt` up to and including the then-block (lines
204-223). -/
def ifHeader (fuel : ℕ) (st : PState) :
    Except ParseErr ((Expr × List Expr) × PState) :=
  match fuel with
  | 0 => .error .outOfFuel
  | n + 1 => do
    let st := getNextToken st
    let (cond, st) ← parseExpression n st
    if st.cur ≠ opTok ":" then .error .expectedColon
    else do
      let st := getNextToken st
      let (thenB, st) ← parseBlock n st
      .ok ((cond, thenB), st)

/-- `Parser.parse_if_stmt` (lines 195-244): after the then-block one
following `Indent` token is eaten unconditionally, then an optional
`else:` block is parsed; the else block is empty when absent. -/
def parseIfStmt (fuel : ℕ) (st : PState) : Except ParseErr (Expr × PState) :=
  match fuel with
  | 0 => .error .outOfFuel
  | n + 1 => do
    let ((cond, thenB), st) ← ifHeader n st
    let st := if st.cur.kind = .indent then getNextToken st else st
    if st.cur.kind = .kw_else then
      let st := getNextToken st
      if st.cur ≠ opTok ":" then .error .expectedColon
      else do
        let st := getNextToken st
        let (elseB, st) ← parseBlock n st
        .ok (.ifE cond thenB elseB, st)
    else .ok (.ifE cond thenB [], st)

/-- `Parser.parse_for_stmt` up to and including the end expression
(lines 330-347). -/
def forHeader (fuel : ℕ) (st : PState) :
    Except ParseErr ((String × Expr × Expr) × PState) :=
  match fuel with
  | 0 => .error .outOfFuel
  | n + 1 =>
    let st := getNextToken st
    if st.cur.kind ≠ .identifier then .error .expectedIdentifier
    else
      match st.cur.value with
      | .str idName =>
        let st := getNextToken st
        if st.cur ≠ opTok "=" then .error .expectedEq
        else do
          let st := getNextToken st
          let (startE, st) ← parseExpression n st
          if st.cur ≠ opTok "," then .error .expectedComma
          else do
            let st := getNextToken st
            let (endE, st) ← parseExpression n st
            .ok ((idName, startE, endE), st)
      | _ => .error .typeConfusion

/-- `Parser.parse_for_stmt` (lines 321-362): optional step after a second
comma, else `FloatExprAST(1.0)`; then `in` and a single-expression body
block. -/
def parseForStmt (fuel : ℕ) (st : PState) : Except ParseErr (Expr × PState) :=
  match fuel with
  | 0 => .error .outOfFuel
  | n + 1 => do
    let ((idName, startE, endE), st) ← forHeader n st
    let (stepE, st) ←
      if st.cur = opTok "," then parseExpression n (getNextToken st)
      else .ok ((.floatE 1 : Expr), st)
    if st.cur.kind ≠ .kw_in then .error .expectedIn
    else do
      let st := getNextToken st
      let (bodyE, st) ← parseExpression n st
      .ok (.forE idName startE endE stepE [bodyE], st)

/-- `Parser.parse_var_expr`. -/
def parseVarExpr (fuel : ℕ) (st : PState) : Except ParseErr (Expr × PState) :=
  match fuel with
  | 0 => .error .outOfFuel
  | n + 1 =>
    let st := getNextToken st
    if st.cur.kind ≠ .identifier then .error .expectedIdentifier
    else do
      let (vars, st) ← parseVarBindings n st []
      if st.cur.kind ≠ .kw_in then .error .expectedIn
      else do
        let st := getNextToken st
        let (body, st) ← parseExpression n st
        .ok (.varDeclE vars "float" body, st)

/-- The binding loop inside `parse_var_expr`; a missing initializer
becomes `FloatExprAST(0.0)`. -/
def parseVarBindings (fuel : ℕ) (st : PState) (acc : List (String × Expr)) :
    Except ParseErr (List (String × Expr) × PState) :=
  match fuel with
  | 0 => .error .outOfFuel
  | n + 1 =>
    match st.cur.value with
    | .str name => do
      let st := getNextToken st
      let (init, st) ←
        if st.cur = opTok "=" then parseExpression n (getNextToken st)
        else .ok ((.floatE 0 : Expr), st)
      let acc := acc ++ [(name, init)]
      if st.cur ≠ opTok "," then .ok (acc, st)
      else
        let st := getNextToken st
        if st.cur.kind ≠ .identifier then .error .expectedIdentifier
        else parseVarBindings n st acc
    | _ => .error .typeConfusion

/-- `Parser.parse_return_function`: eat `return`, parse an expression. -/
def parseReturnFunction (fuel : ℕ) (st : PState) : Except ParseErr (Expr × PState) :=
  match fuel with
  | 0 => .error .outOfFuel
  | n + 1 => do
    let (e, st) ← parseExpression n (getNextToken st)
    .ok (.returnE e, st)

/-- `Parser.parse_bin_op_rhs` (lines 438-482): standard precedence
climbing; the recursion into the right operand happens only when the next
operator binds strictly tighter. -/
def parseBinOpRhs (fuel : ℕ) (exprPrec : ℤ) (lhs : Expr) (st : PState) :
    Except ParseErr (Expr × PState) :=
  match fuel with
  | 0 => .error .outOfFuel
  | n + 1 =>
    let curPrec := getTokPrecedence st.cur
    if curPrec < exprPrec then .ok (lhs, st)
    else
      match st.cur.value with
      | .str binOp => do
        let st := getNextToken st
        let (rhs, st) ← parseUnary n st
        let nextPrec := getTokPrecedence st.cur
        let (rhs, st) ←
          if curPrec < nextPrec then parseBinOpRhs n (curPrec + 1) rhs st
          else .ok (rhs, st)
        parseBinOpRhs n exprPrec (.binaryE binOp lhs rhs) st
      | _ => .ok (lhs, st)

end

/-- The parameter loop of `parse_prototype` / `parse_extern_prototype`
(lines 511-525): `get_next_token` in the loop condition, append an
identifier parameter typed `float`, stop on the first non-comma after a
parameter or non-identifier at the loop head. -/
def protoParamsLoop (fuel : ℕ) (st : PState) (acc : List Param) :
    Except ParseErr (List Param × PState) :=
  match fuel with
  | 0 => .error .outOfFuel
  | n + 1 =>
    let st := getNextToken st
    match st.cur.kind, st.cur.value with
    | .identifier, .str idName =>
      let acc := acc ++ [Param.mk idName "float"]
      let st := getNextToken st
      if st.cur ≠ opTok "," then .ok (acc, st)
      else protoParamsLoop n st acc
    | .identifier, _ => .error .typeConfusion
    | _, _ => .ok (acc, st)

/-- `Parser.parse_prototype`: name, parenthesised `float` parameters and a
trailing `:`; the return type is fixed to `float`. -/
def parsePrototype (fuel : ℕ) (st : PState) : Except ParseErr (Prototype × PState) :=
  if st.cur.kind = .identifier then
    match st.cur.value with
    | .str fnName =>
      let st := getNextToken st
      if st.cur ≠ opTok "(" then .error .expectedParenOpen
      else do
        let (args, st) ← protoParamsLoop fuel st []
        if st.cur ≠ opTok ")" then .error .expectedParenClose
        else
          let st := getNextToken st
          if st.cur ≠ opTok ":" then .error .expectedColon
          else .ok (Prototype.mk fnName "float" args, getNextToken st)
    | _ => .error .typeConfusion
  else .error .expectedIdentifier

/-- `Parser.parse_extern_prototype`: as `parse_prototype` but without the
trailing `:`. -/
def parseExternPrototype (fuel : ℕ) (st : PState) : Except ParseErr (Prototype × PState) :=
  if st.cur.kind = .identifier then
    match st.cur.value with
    | .str fnName =>
      let st := getNextToken st
      if st.cur ≠ opTok "(" then .error .expectedParenOpen
      else do
        let (args, st) ← protoParamsLoop fuel st []
        if st.cur ≠ opTok ")" then .error .expectedParenClose
        else .ok (Prototype.mk fnName "float" args, getNextToken st)
    | _ => .error .typeConfusion
  else .error .expectedIdentifier

/-- `Parser.parse_function`: eat `fn`, parse a prototype, then a block. -/
def parseFunction (fuel : ℕ) (st : PState) : Except ParseErr (Expr × PState) :=
  match fuel with
  | 0 => .error .outOfFuel
  | n + 1 => do
    let st := getNextToken st
    let (proto, st) ← parsePrototype n st
    let (body, st) ← parseBlock n st
    .ok (.functionE proto body, st)

/-- `Parser.parse_extern`: eat `extern`, parse an extern prototype. -/
def parseExtern (fuel : ℕ) (st : PState) : Except ParseErr (Expr × PState) :=
  match fuel with
  | 0 => .error .outOfFuel
  | n + 1 => do
    let st := getNextToken st
    let (proto, st) ← parseExternPrototype n st
    .ok (.protoE proto, st)

/-- The top-level dispatch loop of `Parser.parse`. -/
def parseTop (fuel : ℕ) (st : PState) (acc : List Expr) :
    Except ParseErr (List Expr) :=
  match fuel with
  | 0 => .error .outOfFuel
  | n + 1 =>
    if st.cur.kind = .eof then .ok acc
    else if st.cur = opTok ";" then parseTop n (getNextToken st) acc
    else if st.cur.kind = .kw_function then do
      let (f, st) ← parseFunction n st
      parseTop n st (acc ++ [f])
    else if st.cur.kind = .kw_external then do
      let (p, st) ← parseExtern n st
      parseTop n st (acc ++ [p])
    else do
      let (e, st) ← parseExpression n st
      parseTop n st (acc ++ [e])

/-- `Parser.parse`: reset the state, prime the lookahead, skip a
`not_initialized` cursor, then run the top-level loop; the result is the
node list of the produced `ModuleAST`. -/
def parse (fuel : ℕ) (tokens : List Token) : Except ParseErr (List Expr) :=
  let st : PState :=
    getNextToken { cur := ⟨.not_initialized, .str ""⟩, rest := tokens, indentLevel := 0 }
  let st := if st.cur.kind = .not_initialized then getNextToken st else st
  parseTop fuel st []

/-! ## Character buffer (`io.py`)

`ArxBuffer` holds the accumulated text and a read cursor.  `read` bumps
the cursor before indexing (so an out-of-range read still advances it)
and returns the empty string past the end, mirroring the
`try/except IndexError` in the source. -/

structure ArxBuffer where
  buffer : String
  position : ℕ
  deriving DecidableEq, Repr

def ArxBuffer.clean (_b : ArxBuffer) : ArxBuffer :=
  { position := 0, buffer := "" }

def ArxBuffer.write (b : ArxBuffer) (text : String) : ArxBuffer :=
  { buffer := b.buffer ++ text, position := 0 }

def ArxBuffer.read (b : ArxBuffer) : String × ArxBuffer :=
  let b' : ArxBuffer := { b with position := b.position + 1 }
  match b.buffer.data.get? b.position with
  | some c => (String.mk [c], b')
  | none => ("", b')

/-- `ArxIO.string_to_buffer`: `buffer.clean()` then `buffer.write(value)`. -/
def ArxBuffer.stringToBuffer (b : ArxBuffer) (value : String) : ArxBuffer :=
  b.clean.write value

/-- Run `read` a number of times, keeping only the final buffer state. -/
def ArxBuffer.readN : ℕ → ArxBuffer → ArxBuffer
  | 0, b => b
  | n + 1, b => ArxBuffer.readN n b.read.2

/-! ## Object-code lowering (`codegen/file_object.py`)

The LLVM builder is modelled as a trace: every builder call appends an
`Emit` record and yields a fresh `IRValue.instr` handle.  The module's
global symbols are the function names with their arities,
`function_protos` and `named_values` are association lists with
dictionary update semantics, and `result_stack` is the
`ObjectGenerator.result_stack` list. -/

inductive IRValue where
  | constFloat (val : ℚ)
  | func (name : String) (arity : ℕ)
  | instr (id : ℕ)
  | list (vs : List IRValue)
  deriving Repr

/-- Python truthiness of the values that reach `if not x:` checks in the
visitor: the empty list (an empty block result) is falsy; constants,
function handles and instruction results are truthy objects. -/
def IRValue.isFalsy : IRValue → Bool
  | .list [] => true
  | _ => false

inductive Emit where
  | alloca (name : String)
  | load (name : String)
  | store
  | fadd
  | fsub
  | fmul
  | fcmpUnordered (op : String)
  | fcmpOrdered (op : String)
  | uitofp
  | call (callee : String) (nargs : ℕ)
  | phi
  | branch
  | cbranch
  | appendBlock (name : String)
  | createBlock (name : String)
  | positionAt (name : String)
  | ret
  deriving DecidableEq, Repr

structure CGState where
  globals : List (String × ℕ)
  functionProtos : List (String × Prototype)
  namedValues : List (String × IRValue)
  resultStack : List IRValue
  emissions : List Emit
  deriving Repr

/-- The exception paths of `file_object.py`: explicit `raise` sites plus
the CPython errors its code runs into (`pop` from an empty list, a `call`
on a `None` callee, a missing `named_values` key). -/
inductive CGErr where
  | unknownVariable (name : String)
  | emptyUnaryOperand
  | unknownUnaryOp
  | unknownFunction
  | arityMismatch
  | destNotVariable
  | keyError (name : String)
  | thenInvalid
  | elseInvalid
  | notImplemented
  | invalidFunction
  | noneCallee
  | popEmpty
  | outOfFuel
  deriving DecidableEq, Repr

def push (v : IRValue) (st : CGState) : CGState :=
  { st with resultStack := v :: st.resultStack }

/-- `result_stack.pop()`: `IndexError` on an empty list. -/
def popStack (st : CGState) : Except CGErr (IRValue × CGState) :=
  match st.resultStack with
  | [] => .error .popEmpty
  | v :: vs => .ok (v, { st with resultStack := vs })

/-- A builder call: record the action, hand back a fresh value. -/
def emit (e : Emit) (st : CGState) : IRValue × CGState :=
  (.instr st.emissions.length, { st with emissions := st.emissions ++ [e] })

def mapSet {α : Type} (k : String) (v : α) (m : List (String × α)) :
    List (String × α) :=
  (k, v) :: m.filter (fun p => p.1 ≠ k)

def mapDel {α : Type} (k : String) (m : List (String × α)) :
    List (String × α) :=
  m.filter (fun p => p.1 ≠ k)

/-- `ObjectGenerator.visit_prototype` (lines 602-620): build the function
type, create the named function in the module (which registers the
symbol), name the parameters, and return the handle — without touching
`result_stack`. -/
def visitPrototypeCG (p : Prototype) (st : CGState) : IRValue × CGState :=
  (.func p.name p.args.length,
   { st with globals := st.globals ++ [(p.name, p.args.length)] })

/-- `ObjectGenerator.get_function` (lines 202-217), faithfully including
its return behaviour: when the name is a module global the handle is
pushed onto `result_stack` and the method returns with a bare `return`
(that is, `None`); when only a prototype is known it is lowered via
`visit` and the result is discarded; in the remaining case the method
falls through.  Every path returns `None`. -/
def getFunction (name : String) (st : CGState) : Option IRValue × CGState :=
  match st.globals.lookup name with
  | some ar => (none, push (.func name ar) st)
  | none =>
    match st.functionProtos.lookup name with
    | some p => (none, (visitPrototypeCG p st).2)
    | none => (none, st)

/-- `ObjectGenerator.visit_float_expr`: push an `ir.Constant` of float
type. -/
def visitFloatExpr (v : ℚ) (st : CGState) : CGState :=
  push (.constFloat v) st

/-- `ObjectGenerator.visit_variable_expr`: look the name up in
`named_values`, raise when absent, emit a `load` and push it. -/
def visitVariableExpr (name : String) (st : CGState) : Except CGErr CGState :=
  match st.namedValues.lookup name with
  | none => .error (.unknownVariable name)
  | some _ =>
    let (v, st) := emit (.load name) st
    .ok (push v st)

/-- `ObjectGenerator.visit_return_stmt` (lines 666-678): the body is
commented out; the method just returns, emitting nothing and pushing
nothing. -/
def visitReturnStmt (_value : Expr) (st : CGState) : Except CGErr CGState :=
  .ok st

/-- The per-argument alloca/store/bind loop of `visit_function`. -/
def bindArgs (params : List Param) (st : CGState) : CGState :=
  params.foldl
    (fun st p =>
      let (v, st) := emit (.alloca p.name) st
      let (_, st) := emit .store st
      { st with namedValues := mapSet p.name v st.namedValues })
    st

mutual

/-- `CodeGenBase.visit`: dispatch on the node type to the visit method of
`ObjectGenerator`. -/
def visit (fuel : ℕ) (e : Expr) (st : CGState) : Except CGErr CGState :=
  match fuel with
  | 0 => .error .outOfFuel
  | n + 1 =>
    match e with
    | .floatE v => .ok (visitFloatExpr v st)
    | .varE name _ => visitVariableExpr name st
    | .unaryE op operand => visitUnaryExpr n op operand st
    | .binaryE op lhs rhs => visitBinaryExpr n op lhs rhs st
    | .callE callee args => visitCallExpr n callee args st
    | .ifE cond thenB elseB => visitIfStmt n cond thenB elseB st
    | .forE v s e' stp b => visitForStmt n v s e' stp b st
    | .varDeclE _ _ _ => .error .notImplemented
    | .protoE p => .ok (visitPrototypeCG p st).2
    | .functionE p b => visitFunction n p b st
    | .returnE v => visitReturnStmt v st
    | .blockE nodes => visitBlockStmt n nodes st

/-- `ObjectGenerator.visit_unary_expr`: visit the operand, call the
`unary<op>` function via `get_function` — which returns `None` on every
path, so the `if not fn` check always raises. -/
def visitUnaryExpr (fuel : ℕ) (op : String) (operand : Expr) (st : CGState) :
    Except CGErr CGState :=
  match fuel with
  | 0 => .error .outOfFuel
  | n + 1 => do
    let st ← visit n operand st
    let (opV, st) ← popStack st
    if opV.isFalsy then .error .emptyUnaryOperand
    else
      let (fnOpt, st) := getFunction ("unary" ++ op) st
      match fnOpt with
      | none => .error .unknownUnaryOp
      | some _ =>
        let (v, st) := emit (.call ("unary" ++ op) 1) st
        .ok (push v st)

/-- `ObjectGenerator.visit_binary_expr` (lines 305-389). -/
def visitBinaryExpr (fuel : ℕ) (op : String) (lhs rhs : Expr) (st : CGState) :
    Except CGErr CGState :=
  match fuel with
  | 0 => .error .outOfFuel
  | n + 1 =>
    if op = "=" then
      match lhs with
      | .varE lname _ => do
        let st ← visit n rhs st
        let (rhsV, st) ← popStack st
        match st.namedValues.lookup lname with
        | none => .error (.keyError lname)
        | some _ =>
          let (_, st) := emit .store st
          .ok (push rhsV st)
      | _ => .error .destNotVariable
    else do
      let st ← visit n lhs st
      let (_lhsV, st) ← popStack st
      let st ← visit n rhs st
      let (_rhsV, st) ← popStack st
      if op = "+" then
        let (v, st) := emit .fadd st
        .ok (push v st)
      else if op = "-" then
        let (v, st) := emit .fsub st
        .ok (push v st)
      else if op = "*" then
        let (v, st) := emit .fmul st
        .ok (push v st)
      else if op = "<" then
        let (_, st) := emit (.fcmpUnordered "<") st
        let (v, st) := emit .uitofp st
        .ok (push v st)
      else if op = ">" then
        let (_, st) := emit (.fcmpUnordered ">") st
        let (v, st) := emit .uitofp st
        .ok (push v st)
      else
        -- user-defined operator: `get_function` yields `None`, which is
        -- then passed as the callee of `ir_builder.call`
        let (fnOpt, st) := getFunction ("binary" ++ op) st
        match fnOpt with
        | none => .error .noneCallee
        | some _ =>
          let (v, st) := emit (.call ("binary" ++ op) 2) st
          .ok (push v st)

/-- `ObjectGenerator.visit_call_expr` (lines 399-424): the callee comes
from `get_function`, whose result is `None` on every path, so the
`if not callee_f` error is reached even when the function exists. -/
def visitCallExpr (fuel : ℕ) (callee : String) (args : List Expr) (st : CGState) :
    Except CGErr CGState :=
  match fuel with
  | 0 => .error .outOfFuel
  | n + 1 =>
    let (calleeF, st) := getFunction callee st
    match calleeF with
    | none => .error .unknownFunction
    | some f =>
      match f with
      | .func fname farity =>
        if farity ≠ args.length then .error .arityMismatch
        else do
          let (_argVs, st) ← visitCallArgs n args st []
          let (v, st) := emit (.call fname args.length) st
          .ok (push v st)
      | _ => .error .unknownFunction

/-- The argument loop inside `visit_call_expr`: visit each argument in
order and pop its value. -/
def visitCallArgs (fuel : ℕ) (args : List Expr) (st : CGState)
    (acc : List IRValue) : Except CGErr (List IRValue × CGState) :=
  match fuel with
  | 0 => .error .outOfFuel
  | n + 1 =>
    match args with
    | [] => .ok (acc, st)
    | a :: rest => do
      let st ← visit n a st
      let (v, st) ← popStack st
      visitCallArgs n rest st (acc ++ [v])

/-- `ObjectGenerator.visit_if_stmt` (lines 426-492). -/
def visitIfStmt (fuel : ℕ) (cond : Expr) (thenB elseB : List Expr)
    (st : CGState) : Except CGErr CGState :=
  match fuel with
  | 0 => .error .outOfFuel
  | n + 1 => do
    let st ← visit n cond st
    let (_condV, st) ← popStack st
    let (_, st) := emit (.fcmpOrdered "!=") st
    let (_, st) := emit (.appendBlock "then") st
    let (_, st) := emit (.createBlock "else") st
    let (_, st) := emit (.createBlock "ifcont") st
    let (_, st) := emit .cbranch st
    let (_, st) := emit (.positionAt "then") st
    let st ← visit n (.blockE thenB) st
    let (thenV, st) ← popStack st
    if thenV.isFalsy then .error .thenInvalid
    else do
      let (_, st) := emit .branch st
      let (_, st) := emit (.appendBlock "else") st
      let (_, st) := emit (.positionAt "else") st
      let st ← visit n (.blockE elseB) st
      let (elseV, st) ← popStack st
      if elseV.isFalsy then .error .elseInvalid
      else do
        let (_, st) := emit .branch st
        let (_, st) := emit (.appendBlock "ifcont") st
        let (_, st) := emit (.positionAt "ifcont") st
        let (phiV, st) := emit .phi st
        .ok (push phiV st)

/-- `ObjectGenerator.visit_for_stmt` (lines 494-590), including the silent
`return`s that leave nothing on the result stack. -/
def visitForStmt (fuel : ℕ) (varName : String) (startE endE stepE : Expr)
    (body : List Expr) (st : CGState) : Except CGErr CGState :=
  match fuel with
  | 0 => .error .outOfFuel
  | n + 1 => do
    let (allocaV, st) := emit (.alloca varName) st
    let st ← visit n startE st
    let (_startV, st) ← popStack st
    let (_, st) := emit .store st
    let (_, st) := emit (.appendBlock "loop") st
    let (_, st) := emit .branch st
    let (_, st) := emit (.positionAt "loop") st
    let oldVal := st.namedValues.lookup varName
    let st := { st with namedValues := mapSet varName allocaV st.namedValues }
    let st ← visit n (.blockE body) st
    let (bodyV, st) ← popStack st
    if bodyV.isFalsy then .ok st
    else do
      -- `if expr.step:` — the parser always supplies a step node, and a
      -- node object is truthy, so the step is always visited
      let st ← visit n stepE st
      let (stepV, st) ← popStack st
      if stepV.isFalsy then .ok st
      else do
        let st ← visit n endE st
        let (endV, st) ← popStack st
        if endV.isFalsy then .ok st
        else
          let (_, st) := emit (.load varName) st
          let (_, st) := emit .fadd st
          let (_, st) := emit .store st
          let (_, st) := emit (.fcmpOrdered "!=") st
          let (_, st) := emit (.appendBlock "afterloop") st
          let (_, st) := emit .cbranch st
          let (_, st) := emit (.positionAt "afterloop") st
          let st :=
            match oldVal with
            | some ov => { st with namedValues := mapSet varName ov st.namedValues }
            | none => { st with namedValues := mapDel varName st.namedValues }
          .ok (push (.constFloat 0) st)

/-- `ObjectGenerator.visit_function` (lines 622-664): register the
prototype, fetch the function through `get_function` — which returns
`None`, so the `if not fn` check raises on every function — then (in the
unreachable remainder) build the entry block, bind the arguments, lower
the body and emit the return. -/
def visitFunction (fuel : ℕ) (proto : Prototype) (body : List Expr)
    (st : CGState) : Except CGErr CGState :=
  match fuel with
  | 0 => .error .outOfFuel
  | n + 1 =>
    let st := { st with functionProtos := mapSet proto.name proto st.functionProtos }
    let (fnOpt, st) := getFunction proto.name st
    match fnOpt with
    | none => .error .invalidFunction
    | some _ => do
      let (_, st) := emit (.appendBlock "entry") st
      let st := bindArgs proto.args st
      let st ← visit n (.blockE body) st
      let (retV, st) ← popStack st
      if retV.isFalsy then
        let (_, st) := emit .ret st
        .ok st
      else
        let (_, st) := emit .ret st
        .ok st

/-- `ObjectGenerator.visit_block` (lines 391-397): visit the nodes in
source order, collect each popped value into a Python list, and push that
list. -/
def visitBlockStmt (fuel : ℕ) (nodes : List Expr) (st : CGState) :
    Except CGErr CGState :=
  match fuel with
  | 0 => .error .outOfFuel
  | n + 1 => do
    let (vs, st) ← visitBlockNodes n nodes st []
    .ok (push (.list vs) st)

/-- The `for node in expr.nodes` loop of `visit_block`. -/
def visitBlockNodes (fuel : ℕ) (nodes : List Expr) (st : CGState)
    (acc : List IRValue) : Except CGErr (List IRValue × CGState) :=
  match fuel with
  | 0 => .error .outOfFuel
  | n + 1 =>
    match nodes with
    | [] => .ok (acc, st)
    | e :: rest => do
      let st ← visit n e st
      let (v, st) ← popStack st
      visitBlockNodes n rest st (acc ++ [v])

end

/-- The generator state after `ObjectGenerator.__init__`: the module
holds the two builtins installed by `_add_builtins` —
`putchar(i32) → i32` and `putchard(float) → float` — and the prototype
map, the symbol table and the result stack are empty. -/
def initState : CGState :=
  { globals := [("putchar", 1), ("putchard", 1)],
    functionProtos := [],
    namedValues := [],
    resultStack := [],
    emissions := [] }

/-! ## Theorems -/

/-- Parser state primed on a token list, as `Parser.parse` does before its
top-level loop. -/
def primedState (toks : List Token) : PState :=
  getNextToken { cur := ⟨.not_initialized, .str ""⟩, rest := toks, indentLevel := 0 }

/-- C1: the claim says `get_function` returns the function handle whenever
the name is a module global, and that `visit_call_expr` signals a scope
error only when the callee is absent from both the module and
`function_protos`.  On the code this fails: `get_function` pushes the
handle onto `result_stack` and returns `None` on every path, so
`visit_call_expr` raises "Unknown function referenced" even for the
builtin `putchard`, which is a module global in the freshly initialised
generator. -/
theorem c1_call_lowering_rejects_existing_global :
    initState.globals.lookup "putchard" = some 1 ∧
    getFunction "putchard" initState = (none, push (.func "putchard" 1) initState) ∧
    visit 5 (.callE "putchard" [.floatE 1]) initState = .error .unknownFunction ∧
    visit 5 (.functionE ⟨"f", "float", []⟩ [.floatE 1]) initState = .error .invalidFunction := by
  refine ⟨rfl, rfl, rfl, rfl⟩

/-- C4: `visit_return_stmt` (file_object.py lines 666-678) is a stubbed
no-op: it neither visits the payload nor emits a return, and pushes
nothing, so the enclosing `visit_block` pop underflows on a block whose
only node is a return statement. -/
theorem c4_return_stmt_lowering_is_noop :
    visit 5 (.returnE (.varE "a" "float")) initState = .ok initState ∧
    visit 5 (.returnE (.floatE 1)) initState = .ok initState ∧
    visitBlockStmt 5 [.returnE (.floatE 1)] initState = .error .popEmpty := by
  refine ⟨rfl, rfl, rfl⟩

/-- C2 counterexample: lowering the two-node block `[1.0, 2.0]` pushes the
Python list of both constants, not the final node's value `2.0`, so the
value popped by the enclosing visit is not the IR value of the block's
final node. -/
theorem c2_block_pushes_list_counterexample :
    visitBlockStmt 10 [.floatE 1, .floatE 2] initState
      = .ok (push (.list [.constFloat 1, .constFloat 2]) initState) ∧
    IRValue.list [.constFloat 1, .constFloat 2] ≠ IRValue.constFloat 2 := by
  exact ⟨rfl, fun h => IRValue.noConfusion h⟩

/-- C5 counterexample: a `parse_block` call whose current token is
`Indent(0)` while `indent_level` is `2` does not fail — it returns an
empty block and decrements the level.  Such calls arise in real parses:
in the two-function program below the inherited `indent_level` is `6`
when `g`'s body block is parsed at `Indent(4)`, so `g` silently gets an
empty body and `y` escapes to the top level, with no parser error. -/
theorem c5_shallow_indent_block_no_error :
    parseBlock 10 { cur := indentTok 0, rest := [floatTok 7], indentLevel := 2 }
      = .ok ([], { cur := floatTok 7, rest := [], indentLevel := 0 }) ∧
    parse 30 (lexString "fn f(x):\n        x\nfn g(y):\n    y\n")
      = .ok [.functionE ⟨"f", "float", [⟨"x", "float"⟩]⟩ [.varE "x" "float"],
             .functionE ⟨"g", "float", [⟨"y", "float"⟩]⟩ [],
             .varE "y" "float"] := by
  constructor
  · rfl
  · simp [lexString, lexLoop, keywordToken, isNewline, isIdentFirst, isIdentChar,
      isNumChar, isBlankChar]
    rfl

/-- C9: `ArxBuffer.write` appends to the accumulated contents and resets
the read position to `0`; hence after any number of reads a write makes
the next `read` return the first character of the whole accumulated
buffer, and only `string_to_buffer` (which `clean`s first) replaces the
contents. -/
theorem c9_buffer_write_appends_and_rewinds (b : ArxBuffer) (t : String) (n : ℕ) :
    (b.write t).buffer = b.buffer ++ t ∧
    (b.write t).position = 0 ∧
    (ArxBuffer.readN n b).write t = ⟨b.buffer ++ t, 0⟩ ∧
    (∀ c cs, (b.buffer ++ t).data = c :: cs →
      ((ArxBuffer.readN n b).write t).read.1 = String.mk [c]) ∧
    b.stringToBuffer t = ⟨t, 0⟩ := by
  have hbuf : ∀ m (x : ArxBuffer), (ArxBuffer.readN m x).buffer = x.buffer := by
    intro m
    induction m with
    | zero => intro x; rfl
    | succ k ih =>
      intro x
      show (ArxBuffer.readN k x.read.2).buffer = x.buffer
      rw [ih]
      unfold ArxBuffer.read
      cases x.buffer.data.get? x.position <;> rfl
  have hw : (ArxBuffer.readN n b).write t = ⟨b.buffer ++ t, 0⟩ := by
    unfold ArxBuffer.write
    rw [hbuf]
  refine ⟨rfl, rfl, hw, ?_, ?_⟩
  · intro c cs h
    rw [hw]
    unfold ArxBuffer.read
    simp only [h, List.get?]
  · unfold ArxBuffer.stringToBuffer ArxBuffer.clean ArxBuffer.write
    simp

/-- C9 witness: the buffer `"ab"` read three times, then extended with
`"xy"`; the next read yields `"a"` again. -/
theorem c9_buffer_write_appends_and_rewinds_witness :
    (ArxBuffer.readN 3 ⟨"ab", 0⟩).write "xy" = ⟨"abxy", 0⟩ ∧
    ((ArxBuffer.readN 3 ⟨"ab", 0⟩).write "xy").read.1 = "a" := by
  have h := c9_buffer_write_appends_and_rewinds ⟨"ab", 0⟩ "xy" 3
  exact ⟨by rw [h.2.2.1]; rfl, h.2.2.2.1 'a' "bxy".data rfl⟩

/-- C6 counterexample: `const` is listed among the keywords of the
language surface, but the keyword chain of `gettok` has no `const`
branch, so lexing `const` yields an identifier token, not a token of a
keyword kind. -/
theorem c6_const_lexes_as_identifier :
    lexString "const" = [identTok "const", eofTok] ∧
    identTok "const" ≠ Token.mk .kw_const (.str "const") := by
  constructor
  · simp [lexString, lexLoop, keywordToken, isNewline, isIdentFirst, isIdentChar,
      isNumChar, isBlankChar, identTok, eofTok]
  · decide

/-- C6 (amended): lexing each keyword lexeme of the keyword table —
`fn return extern if else for in binary unary var` — yields exactly one
token of the corresponding keyword kind followed by `EOF`; the lexeme
`const`, although listed in the spec's language surface, lexes as an
identifier. -/
theorem c6_keyword_lexing :
    lexString "fn" = [⟨.kw_function, .str "fn"⟩, eofTok] ∧
    lexString "return" = [⟨.kw_return, .str "return"⟩, eofTok] ∧
    lexString "extern" = [⟨.kw_external, .str "extern"⟩, eofTok] ∧
    lexString "if" = [⟨.kw_if, .str "if"⟩, eofTok] ∧
    lexString "else" = [⟨.kw_else, .str "else"⟩, eofTok] ∧
    lexString "for" = [⟨.kw_for, .str "for"⟩, eofTok] ∧
    lexString "in" = [⟨.kw_in, .str "in"⟩, eofTok] ∧
    lexString "binary" = [⟨.kw_binary, .str "binary"⟩, eofTok] ∧
    lexString "unary" = [⟨.kw_unary, .str "unary"⟩, eofTok] ∧
    lexString "var" = [⟨.kw_var, .str "var"⟩, eofTok] ∧
    lexString "const" = [⟨.identifier, .str "const"⟩, eofTok] := by
  refine ⟨?_, ?_, ?_, ?_, ?_, ?_, ?_, ?_, ?_, ?_, ?_⟩ <;>
    simp [lexString, lexLoop, keywordToken, isNewline, isIdentFirst, isIdentChar,
      isNumChar, isBlankChar, eofTok]

/-- C7: for each operator of the precedence table, `a op b op c` parses
to `BinaryExpr(op, BinaryExpr(op, a, b), c)` — equal precedences group
left-associatively, the climbing recursing into the right operand only
for a strictly tighter operator. -/
theorem c7_equal_precedence_left_assoc (op : String)
    (hop : op ∈ (["=", "<", ">", "+", "-", "*"] : List String))
    (a b c : String) :
    parseExpression 10 (primedState [identTok a, opTok op, identTok b, opTok op, identTok c])
      = .ok (.binaryE op (.binaryE op (.varE a "float") (.varE b "float")) (.varE c "float"),
             { cur := eofTok, rest := [], indentLevel := 0 }) := by
  fin_cases hop <;> rfl

/-- C7 witness: `a - b - c` parses as `(a - b) - c`. -/
theorem c7_equal_precedence_left_assoc_witness :
    parseExpression 10 (primedState [identTok "a", opTok "-", identTok "b", opTok "-", identTok "c"])
      = .ok (.binaryE "-" (.binaryE "-" (.varE "a" "float") (.varE "b" "float")) (.varE "c" "float"),
             { cur := eofTok, rest := [], indentLevel := 0 }) :=
  c7_equal_precedence_left_assoc "-" (by simp) "a" "b" "c"


/-- `Except.bind` applied to a success, for reducing the parser's
monadic sequencing in proofs. -/
theorem except_ok_bind {α β ε : Type} (a : α) (f : α → Except ε β) :
    (do let x ← Except.ok a; f x) = f a := rfl

/-- C8: whenever `parse_for_stmt` succeeds and the token at the step
decision point (after the header `for <id> = <start> , <end>` has been
parsed) is not a comma, the resulting `ForStmt.step` is exactly
`FloatExpr(1.0)`. -/
theorem c8_for_step_default (fuel : ℕ) (st st₂ st' : PState)
    (idName : String) (startE endE f : Expr)
    (hhdr : forHeader fuel st = .ok ((idName, startE, endE), st₂))
    (hnc : st₂.cur ≠ opTok ",")
    (hok : parseForStmt (fuel + 1) st = .ok (f, st')) :
    f.stepOf = some (.floatE 1) := by
  unfold parseForStmt at hok
  rw [hhdr] at hok
  simp only [except_ok_bind, if_neg hnc] at hok
  by_cases hin : st₂.cur.kind ≠ TokenKind.kw_in
  · rw [if_pos hin] at hok
    exact nomatch hok
  · rw [if_neg hin] at hok
    cases hpe : parseExpression fuel (getNextToken st₂) with
    | error e => rw [hpe] at hok; exact nomatch hok
    | ok pr =>
      rw [hpe] at hok
      obtain ⟨bodyE, st₃⟩ := pr
      simp only [except_ok_bind, Except.ok.injEq, Prod.mk.injEq] at hok
      rw [← hok.1]
      rfl


/-- C8 witness: `for i = 1, 2 in 3` — no step — parses with step
`FloatExpr(1.0)`. -/
theorem c8_for_step_default_witness :
    (Expr.forE "i" (.floatE 1) (.floatE 2) (.floatE 1) [.floatE 3]).stepOf
      = some (.floatE 1) :=
  c8_for_step_default 8
    (primedState [⟨.kw_for, .str "for"⟩, identTok "i", opTok "=", floatTok 1,
      opTok ",", floatTok 2, ⟨.kw_in, .str "in"⟩, floatTok 3])
    { cur := ⟨.kw_in, .str "in"⟩, rest := [floatTok 3], indentLevel := 0 }
    { cur := eofTok, rest := [], indentLevel := 0 }
    "i" (.floatE 1) (.floatE 2)
    (.forE "i" (.floatE 1) (.floatE 2) (.floatE 1) [.floatE 3])
    rfl (by decide) rfl

/-- C10: after a successful then-block, `parse_if_stmt` eats one
following `Indent` token unconditionally; when no `else` keyword follows,
the statement is returned with an empty else block and with that `Indent`
token — the one that would continue the enclosing block — already
consumed from the stream. -/
theorem c10_if_consumes_trailing_indent (fuel : ℕ) (st st₂ : PState)
    (cond : Expr) (thenB : List Expr)
    (hhdr : ifHeader fuel st = .ok ((cond, thenB), st₂))
    (hind : st₂.cur.kind = .indent)
    (hne : (getNextToken st₂).cur.kind ≠ .kw_else) :
    parseIfStmt (fuel + 1) st = .ok (.ifE cond thenB [], getNextToken st₂) := by
  unfold parseIfStmt
  rw [hhdr]
  simp only [except_ok_bind]
  rw [if_pos hind]
  rw [if_neg hne]


/-- C10 witness: an `if` at enclosing indentation 2 whose then-block sits
at indentation 4, followed by a statement at indentation 2 and no `else`:
the `Indent(2)` token is consumed before `parse_if_stmt` returns. -/
theorem c10_if_consumes_trailing_indent_witness :
    parseIfStmt 9
      { cur := ⟨.kw_if, .str "if"⟩,
        rest := [floatTok 1, opTok ":", indentTok 4, floatTok 2, indentTok 2, floatTok 3],
        indentLevel := 2 }
      = .ok (.ifE (.floatE 1) [.floatE 2] [],
             { cur := floatTok 3, rest := [], indentLevel := 2 }) :=
  c10_if_consumes_trailing_indent 8
    { cur := ⟨.kw_if, .str "if"⟩,
      rest := [floatTok 1, opTok ":", indentTok 4, floatTok 2, indentTok 2, floatTok 3],
      indentLevel := 2 }
    { cur := indentTok 2, rest := [floatTok 3], indentLevel := 2 }
    (.floatE 1) [.floatE 2] rfl rfl (by decide)

/-! ## Indentation tokens (C3)

The input is presented as a list of lines, each a pair of a leading-space
count and a body that contains no newline characters and does not itself
start with a space; rendering joins them with newlines. -/

def isIndentTok (t : Token) : Bool := t.kind == TokenKind.indent

def renderLine (l : ℕ × List Char) : List Char :=
  List.replicate l.1 ' ' ++ l.2 ++ ['\n']

def renderLines : List (ℕ × List Char) → List Char
  | [] => []
  | l :: ls => renderLine l ++ renderLines ls

def goodLine (l : ℕ × List Char) : Prop :=
  (∀ c ∈ l.2, isNewline c = false) ∧ (∀ c cs, l.2 = c :: cs → c ≠ ' ')

-- step lemmas for lexLoop in mid-line mode
theorem lexLoop_nil_mid : lexLoop [] false = [eofTok] := by
  rw [lexLoop]
  simp

theorem lexLoop_newline (c : Char) (cs : List Char) (hc : isNewline c = true) :
    lexLoop (c :: cs) false = lexLoop cs true := by
  conv_lhs => rw [lexLoop]
  simp [hc]

theorem lexLoop_blankchar (c : Char) (cs : List Char) (hnl : isNewline c = false)
    (hb : isBlankChar c = true) :
    lexLoop (c :: cs) false = lexLoop cs false := by
  conv_lhs => rw [lexLoop]
  simp [hnl, hb]

theorem lexLoop_identStep (c : Char) (cs : List Char) (hnl : isNewline c = false)
    (hb : isBlankChar c = false) (hid : isIdentFirst c = true) :
    lexLoop (c :: cs) false
      = keywordToken (String.mk ((c :: cs).takeWhile isIdentChar)) ::
          lexLoop ((c :: cs).dropWhile isIdentChar) false := by
  conv_lhs => rw [lexLoop]
  simp [hnl, hb, hid]

theorem lexLoop_numStep (c : Char) (cs : List Char) (hnl : isNewline c = false)
    (hb : isBlankChar c = false) (hid : isIdentFirst c = false)
    (hnum : isNumChar c = true) :
    lexLoop (c :: cs) false
      = floatTok (parseFloatLexeme ((c :: cs).takeWhile isNumChar)) ::
          lexLoop ((c :: cs).dropWhile isNumChar) false := by
  conv_lhs => rw [lexLoop]
  simp [hnl, hb, hid, hnum]

theorem lexLoop_commentStep (cs : List Char) :
    lexLoop ('#' :: cs) false = lexLoop (cs.dropWhile (fun d => ¬ isNewline d)) false := by
  conv_lhs => rw [lexLoop]
  simp [isNewline, isBlankChar, isIdentFirst, isNumChar]

theorem lexLoop_opStep (c : Char) (cs : List Char) (hnl : isNewline c = false)
    (hb : isBlankChar c = false) (hid : isIdentFirst c = false)
    (hnum : isNumChar c = false) (hh : c ≠ '#') :
    lexLoop (c :: cs) false = opTok (String.mk [c]) :: lexLoop cs false := by
  conv_lhs => rw [lexLoop]
  simp [hnl, hb, hid, hnum, hh]


theorem keywordToken_not_indent (s : String) : isIndentTok (keywordToken s) = false := by
  unfold keywordToken
  split_ifs <;> rfl

theorem dropWhile_append_not (p : Char → Bool) (xs : List Char) (y : Char)
    (ys : List Char) (hy : p y = false) :
    (xs ++ y :: ys).dropWhile p = xs.dropWhile p ++ y :: ys := by
  induction xs with
  | nil => simp [List.dropWhile_cons, hy]
  | cons x xs ih => by_cases hx : p x <;> simp [List.dropWhile_cons, hx, ih]

theorem isIdentChar_of_first {c : Char} (h : isIdentFirst c = true) :
    isIdentChar c = true := by
  simp only [isIdentFirst, Bool.or_eq_true] at h
  rcases h with h | h
  · simp [isIdentChar, Char.isAlphanum, h]
  · simp [isIdentChar, h]

theorem lex_midline (k : ℕ) : ∀ (body : List Char), body.length ≤ k →
    (∀ c ∈ body, isNewline c = false) → ∀ rest,
    (lexLoop (body ++ '\n' :: rest) false).filter isIndentTok
      = (lexLoop rest true).filter isIndentTok := by
  induction k with
  | zero =>
    intro body hlen _ rest
    have hb : body = [] := List.eq_nil_of_length_eq_zero (Nat.le_zero.mp hlen)
    subst hb
    rw [List.nil_append, lexLoop_newline '\n' rest (by decide)]
  | succ k ih =>
    intro body hlen hnl rest
    match body with
    | [] => rw [List.nil_append, lexLoop_newline '\n' rest (by decide)]
    | c :: cs =>
      have hci : isNewline c = false := hnl c (List.mem_cons_self c cs)
      have hcs : ∀ c' ∈ cs, isNewline c' = false :=
        fun c' h => hnl c' (List.mem_cons_of_mem c h)
      have hlen' : cs.length ≤ k := by
        simp only [List.length_cons] at hlen
        omega
      rw [List.cons_append]
      by_cases hb : isBlankChar c = true
      · rw [lexLoop_blankchar c _ hci hb]
        exact ih cs hlen' hcs rest
      · rw [Bool.not_eq_true] at hb
        by_cases hid : isIdentFirst c = true
        · rw [lexLoop_identStep c _ hci hb hid, List.filter_cons]
          rw [keywordToken_not_indent]
          simp only [Bool.false_eq_true, if_false]
          rw [show c :: (cs ++ '\n' :: rest) = (c :: cs) ++ '\n' :: rest from rfl]
          rw [dropWhile_append_not isIdentChar (c :: cs) '\n' rest (by decide)]
          apply ih
          · have h1 : (c :: cs).dropWhile isIdentChar = cs.dropWhile isIdentChar := by
              simp [List.dropWhile_cons, isIdentChar_of_first hid]
            rw [h1]
            exact le_trans (length_dropWhile_le isIdentChar cs) hlen'
          · intro c' h
            exact hnl c' ((List.dropWhile_sublist _).subset h)
        · rw [Bool.not_eq_true] at hid
          by_cases hnum : isNumChar c = true
          · rw [lexLoop_numStep c _ hci hb hid hnum, List.filter_cons]
            rw [show isIndentTok (floatTok (parseFloatLexeme ((c :: (cs ++ '\n' :: rest)).takeWhile isNumChar))) = false from rfl]
            simp only [Bool.false_eq_true, if_false]
            rw [show c :: (cs ++ '\n' :: rest) = (c :: cs) ++ '\n' :: rest from rfl]
            rw [dropWhile_append_not isNumChar (c :: cs) '\n' rest (by decide)]
            apply ih
            · have h1 : (c :: cs).dropWhile isNumChar = cs.dropWhile isNumChar := by
                simp [List.dropWhile_cons, hnum]
              rw [h1]
              exact le_trans (length_dropWhile_le isNumChar cs) hlen'
            · intro c' h
              exact hnl c' ((List.dropWhile_sublist _).subset h)
          · rw [Bool.not_eq_true] at hnum
            by_cases hh : c = '#'
            · subst hh
              rw [lexLoop_commentStep]
              rw [dropWhile_append_not (fun d => ¬ isNewline d) cs '\n' rest (by decide)]
              have hall : cs.dropWhile (fun d => ¬ isNewline d) = [] := by
                rw [List.dropWhile_eq_nil_iff]
                intro x hx
                simp [hcs x hx]
              rw [hall, List.nil_append, lexLoop_newline '\n' rest (by decide)]
            · rw [lexLoop_opStep c _ hci hb hid hnum hh, List.filter_cons]
              rw [show isIndentTok (opTok (String.mk [c])) = false from rfl]
              simp only [Bool.false_eq_true, if_false]
              exact ih cs hlen' hcs rest


theorem dropWhile_replicate (k : ℕ) (l : List Char)
    (hl : ∀ c cs, l = c :: cs → c ≠ ' ') :
    (List.replicate k ' ' ++ l).dropWhile (fun c => decide (c = ' ')) = l := by
  induction k with
  | zero =>
    cases l with
    | nil => rfl
    | cons c cs =>
      have := hl c cs rfl
      simp [List.dropWhile_cons, this]
  | succ k ih =>
    rw [List.replicate_succ, List.cons_append]
    simp [List.dropWhile_cons, ih]

theorem takeWhile_replicate (k : ℕ) (l : List Char)
    (hl : ∀ c cs, l = c :: cs → c ≠ ' ') :
    (List.replicate k ' ' ++ l).takeWhile (fun c => decide (c = ' ')) = List.replicate k ' ' := by
  induction k with
  | zero =>
    cases l with
    | nil => rfl
    | cons c cs =>
      have := hl c cs rfl
      simp [List.takeWhile_cons, this]
  | succ k ih =>
    rw [List.replicate_succ, List.cons_append]
    simp [List.takeWhile_cons, ih]

theorem lexLoop_nil_start : lexLoop [] true = [eofTok] := by
  rw [lexLoop]
  simp

theorem lex_start_step (k : ℕ) (body rest' : List Char)
    (hnl : ∀ c ∈ body, isNewline c = false)
    (hsp : ∀ c cs, body = c :: cs → c ≠ ' ') :
    (lexLoop (List.replicate k ' ' ++ (body ++ '\n' :: rest')) true).filter isIndentTok
      = (if !body.isEmpty && k != 0 then [indentTok k] else [])
          ++ (lexLoop rest' true).filter isIndentTok := by
  cases body with
  | nil =>
    simp only [List.nil_append]
    have hdw := dropWhile_replicate k ('\n' :: rest') (by intro c cs h; cases h; decide)
    have htw := takeWhile_replicate k ('\n' :: rest') (by intro c cs h; cases h; decide)
    rw [lexLoop.eq_def]
    simp only [if_pos rfl, hdw, htw]
    simp [isNewline]
  | cons c cs =>
    have hc : c ≠ ' ' := hsp c cs rfl
    have hcn : isNewline c = false := hnl c (List.mem_cons_self c cs)
    have hdw := dropWhile_replicate k (c :: (cs ++ '\n' :: rest'))
      (by intro c' cs' h; cases h; exact hc)
    have htw := takeWhile_replicate k (c :: (cs ++ '\n' :: rest'))
      (by intro c' cs' h; cases h; exact hc)
    simp only [List.cons_append]
    rw [lexLoop.eq_def]
    simp only [if_pos rfl, hdw, htw]
    have hmid := lex_midline (c :: cs).length (c :: cs) (le_refl _) hnl rest'
    rw [List.cons_append] at hmid
    by_cases hk : k = 0
    · subst hk
      simp only [List.length_replicate, List.isEmpty_cons, hcn]
      simp [hmid, hcn]
    · have hkpos : 0 < k := Nat.pos_of_ne_zero hk
      simp only [List.length_replicate, List.isEmpty_cons, hcn]
      simp only [List.headD_cons, hcn, Bool.false_eq_true, if_false, hkpos, if_pos]
      rw [List.filter_cons]
      have : isIndentTok (indentTok k) = true := rfl
      simp only [this, if_pos]
      simp [hmid, hk]



/-- C3: over any rendered line list, the `Indent` tokens of the lexed
stream are exactly one `Indent(k)` per non-blank line with leading-space
count `k ≥ 1`, in order — blank lines and whitespace after the first
token of a line never produce an `Indent` token. -/
theorem c3_indent_tokens (ls : List (ℕ × List Char))
    (h : ∀ l ∈ ls, goodLine l) :
    (lexLoop (renderLines ls) true).filter isIndentTok
      = (ls.filter (fun l => !l.2.isEmpty && l.1 != 0)).map (fun l => indentTok l.1) := by
  induction ls with
  | nil =>
    show (lexLoop [] true).filter isIndentTok = []
    rw [lexLoop_nil_start]
    rfl
  | cons l ls ih =>
    obtain ⟨k, body⟩ := l
    have hgood := h (k, body) (List.mem_cons_self _ _)
    rw [show renderLines ((k, body) :: ls)
          = List.replicate k ' ' ++ (body ++ '\n' :: renderLines ls) from by
        simp [renderLines, renderLine, List.append_assoc]]
    rw [lex_start_step k body (renderLines ls) hgood.1 hgood.2]
    rw [ih (fun l hl => h l (List.mem_cons_of_mem _ hl))]
    rw [List.filter_cons]
    by_cases hc : (!body.isEmpty && k != 0) = true
    · simp only [hc, if_pos]
      simp
    · simp only [hc, if_neg]
      simp at hc
      simp [hc]


/-- C3 witness: three lines — `"  a"`, `"b"`, and a blank line of four
spaces — lex to exactly one `Indent(2)`. -/
theorem c3_indent_tokens_witness :
    (lexLoop (renderLines [(2, ['a']), (0, ['b']), (4, [])]) true).filter isIndentTok
      = [indentTok 2] := by
  have h := c3_indent_tokens [(2, ['a']), (0, ['b']), (4, [])] (by
    intro l hl
    fin_cases hl
    · exact ⟨by decide, fun c cs hh => by cases hh; decide⟩
    · exact ⟨by decide, fun c cs hh => by cases hh; decide⟩
    · exact ⟨by decide, fun c cs hh => nomatch hh⟩)
  rw [h]
  decide



theorem getNextToken_indentLevel (st : PState) :
    (getNextToken st).indentLevel = st.indentLevel := by
  unfold getNextToken
  cases st.rest <;> rfl

/-- C5 (amended): for a `parse_block` call whose current token is
`Indent(n)`, a parser error is raised exactly when `n` equals
`indent_level`; when `n` is strictly smaller the call returns an empty
block without error (decrementing the level); and a non-empty block is
produced only when `n` is strictly greater than `indent_level`. -/
theorem c5_parse_block_levels (fuel : ℕ) (st : PState) (n : ℕ)
    (hcur : st.cur = indentTok n) :
    ((n : ℤ) = st.indentLevel → parseBlock (fuel + 1) st = .error .noNewBlock) ∧
    ((n : ℤ) < st.indentLevel →
      parseBlock (fuel + 1) st
        = .ok ([], { getNextToken st with indentLevel := st.indentLevel - 2 })) ∧
    (∀ nodes st', parseBlock (fuel + 1) st = .ok (nodes, st') → nodes ≠ [] →
      (n : ℤ) > st.indentLevel) := by
  have hlvl := getNextToken_indentLevel st
  have h1 : ((n : ℤ) = st.indentLevel → parseBlock (fuel + 1) st = .error .noNewBlock) := by
    intro h
    unfold parseBlock
    rw [hcur]
    simp only [indentTok, hlvl, if_pos h]
  have h2 : ((n : ℤ) < st.indentLevel →
      parseBlock (fuel + 1) st
        = .ok ([], { getNextToken st with indentLevel := st.indentLevel - 2 })) := by
    intro h
    unfold parseBlock
    rw [hcur]
    have hne : ¬((n : ℤ) = st.indentLevel) := by omega
    have hng : ¬((n : ℤ) > st.indentLevel) := by omega
    simp only [indentTok, hlvl, if_neg hne, if_neg hng]
  refine ⟨h1, h2, ?_⟩
  intro nodes st' hok hne
  by_contra hle
  push_neg at hle
  rcases lt_or_eq_of_le hle with hlt | heq
  · rw [h2 hlt] at hok
    simp only [Except.ok.injEq, Prod.mk.injEq] at hok
    exact hne hok.1.symm
  · rw [h1 heq] at hok
    exact nomatch hok


/-- C5 witness: `Indent(1)` under level 4 returns an empty block without
error; `Indent(2)` under level 2 raises the parser error. -/
theorem c5_parse_block_levels_witness :
    parseBlock 10 { cur := indentTok 1, rest := [], indentLevel := 4 }
      = .ok ([], { cur := eofTok, rest := [], indentLevel := 2 }) ∧
    parseBlock 10 { cur := indentTok 2, rest := [], indentLevel := 2 }
      = .error .noNewBlock := by
  have h1 := c5_parse_block_levels 9
    { cur := indentTok 1, rest := [], indentLevel := 4 } 1 rfl
  have h2 := c5_parse_block_levels 9
    { cur := indentTok 2, rest := [], indentLevel := 2 } 2 rfl
  exact ⟨h1.2.1 (by decide), h2.1 (by decide)⟩

/-! ## Block lowering (C2)

`SimpleExpr` captures the expression forms whose lowering always
succeeds and pushes exactly one value — float constants and the builtin
arithmetic and comparison binaries over them — together with the fuel
each needs. -/

inductive SimpleExpr : Expr → Prop where
  | float (q : ℚ) : SimpleExpr (.floatE q)
  | binArith (op : String) (l r : Expr) :
      op ∈ (["+", "-", "*", "<", ">"] : List String) →
      SimpleExpr l → SimpleExpr r → SimpleExpr (.binaryE op l r)

def exprNeed : Expr → ℕ
  | .binaryE _ l r => exprNeed l + exprNeed r + 2
  | _ => 1

theorem exprNeed_pos (e : Expr) : 1 ≤ exprNeed e := by
  cases e <;> simp only [exprNeed] <;> omega

theorem visit_simple_push (e : Expr) (he : SimpleExpr e) :
    ∀ (fuel : ℕ) (st : CGState), exprNeed e ≤ fuel →
    ∃ (v : IRValue) (em : List Emit),
      visit fuel e st
        = .ok { st with resultStack := v :: st.resultStack, emissions := em } ∧
      (∀ q, e = .floatE q → v = .constFloat q) := by
  induction he with
  | float q =>
    intro fuel st hf
    obtain ⟨n, rfl⟩ : ∃ n, fuel = n + 1 := ⟨fuel - 1, by unfold exprNeed at hf; omega⟩
    exact ⟨.constFloat q, st.emissions, rfl, fun q' hq => by cases hq; rfl⟩
  | binArith op l r hop hl hr ihl ihr =>
    intro fuel st hf
    simp only [exprNeed] at hf
    obtain ⟨m, rfl⟩ : ∃ m, fuel = m + 2 := ⟨fuel - 2, by omega⟩
    have hml : exprNeed l ≤ m := by omega
    have hmr : exprNeed r ≤ m := by omega
    obtain ⟨v₁, em₁, h₁, _⟩ := ihl m st hml
    obtain ⟨v₂, em₂, h₂, _⟩ := ihr m { st with emissions := em₁ } hmr
    have hstep : visit (m + 2) (.binaryE op l r) st = visitBinaryExpr (m + 1) op l r st := rfl
    rw [hstep]
    fin_cases hop <;>
      exact ⟨_, _, by
        unfold visitBinaryExpr
        simp only [reduceIte]
        rw [h₁]
        simp only [except_ok_bind, popStack]
        rw [h₂]
        simp only [except_ok_bind, popStack]
        rfl, fun q hq => nomatch hq⟩

theorem visitBlockNodes_simple (nodes : List Expr) :
    ∀ (fuel : ℕ) (st : CGState) (acc : List IRValue),
    (∀ e ∈ nodes, SimpleExpr e) →
    (∀ e ∈ nodes, exprNeed e + nodes.length ≤ fuel) →
    nodes.length < fuel →
    ∃ (vs : List IRValue) (st' : CGState),
      visitBlockNodes fuel nodes st acc = .ok (acc ++ vs, st') ∧
      vs.length = nodes.length ∧
      st'.resultStack = st.resultStack ∧
      st'.globals = st.globals ∧
      st'.functionProtos = st.functionProtos ∧
      st'.namedValues = st.namedValues ∧
      (∀ q, nodes.getLast? = some (.floatE q) → vs.getLast? = some (.constFloat q)) := by
  induction nodes with
  | nil =>
    intro fuel st acc _ _ hlen
    obtain ⟨m, rfl⟩ : ∃ m, fuel = m + 1 := ⟨fuel - 1, by omega⟩
    exact ⟨[], st, by simp [visitBlockNodes], rfl, rfl, rfl, rfl, rfl,
      fun q hq => nomatch hq⟩
  | cons e rest ih =>
    intro fuel st acc hs hf hlen
    obtain ⟨m, rfl⟩ : ∃ m, fuel = m + 1 := ⟨fuel - 1, by omega⟩
    have hse : SimpleExpr e := hs e (List.mem_cons_self _ _)
    have hfe := hf e (List.mem_cons_self _ _)
    have hee : exprNeed e ≤ m := by
      simp only [List.length_cons] at hfe
      omega
    obtain ⟨v, em, hv, hvq⟩ := visit_simple_push e hse m st hee
    have hrest_s : ∀ e' ∈ rest, SimpleExpr e' := fun e' h => hs e' (List.mem_cons_of_mem _ h)
    have hrest_f : ∀ e' ∈ rest, exprNeed e' + rest.length ≤ m := by
      intro e' h
      have := hf e' (List.mem_cons_of_mem _ h)
      simp only [List.length_cons] at this
      omega
    have hrest_len : rest.length < m := by
      have h1 := exprNeed_pos e
      simp only [List.length_cons] at hfe
      omega
    obtain ⟨vs, st', hrec, hlen', hstack, hg, hp, hn, hlast⟩ :=
      ih m { st with emissions := em } (acc ++ [v]) hrest_s hrest_f hrest_len
    refine ⟨v :: vs, st', ?_, by simp [hlen'], by simpa using hstack, hg, hp, hn, ?_⟩
    · show (do let st₁ ← visit m e st
               let pr ← popStack st₁
               visitBlockNodes m rest pr.2 (acc ++ [pr.1]))
          = Except.ok (acc ++ v :: vs, st')
      rw [hv]
      simp only [except_ok_bind, popStack]
      rw [hrec]
      simp [List.append_assoc]
    · intro q hq
      cases rest with
      | nil =>
        have hvs : vs = [] := List.length_eq_zero.mp (by simpa using hlen')
        subst hvs
        have heq : e = .floatE q := by simpa using hq
        simp [hvq q heq]
      | cons r rs =>
        have hq' : (r :: rs).getLast? = some (.floatE q) := by
          rwa [List.getLast?_cons_cons] at hq
        have hv' := hlast q hq'
        cases vs with
        | nil => simp at hlen'
        | cons v2 vs2 =>
          rw [List.getLast?_cons_cons]
          exact hv'



/-- C2 (amended): for every non-empty block of such nodes, `visit_block`
visits the nodes in source order and pushes the Python list of the
produced values — one per node, in order, the last list entry
corresponding to the final node — rather than the final node's value
alone; the enclosing visit pops that list. -/
theorem c2_block_pushes_value_list (nodes : List Expr) (st : CGState) (fuel : ℕ)
    (hne : nodes ≠ [])
    (hs : ∀ e ∈ nodes, SimpleExpr e)
    (hf : ∀ e ∈ nodes, exprNeed e + nodes.length < fuel) :
    ∃ (vs : List IRValue) (st' : CGState),
      visitBlockStmt fuel nodes st = .ok st' ∧
      st'.resultStack = .list vs :: st.resultStack ∧
      vs.length = nodes.length ∧
      st'.globals = st.globals ∧
      st'.functionProtos = st.functionProtos ∧
      st'.namedValues = st.namedValues ∧
      (∀ q, nodes.getLast? = some (.floatE q) → vs.getLast? = some (.constFloat q)) := by
  cases nodes with
  | nil => exact absurd rfl hne
  | cons e₀ rest₀ =>
    have hf₀ := hf e₀ (List.mem_cons_self _ _)
    have h1 := exprNeed_pos e₀
    obtain ⟨m, rfl⟩ : ∃ m, fuel = m + 1 :=
      ⟨fuel - 1, by simp only [List.length_cons] at hf₀; omega⟩
    obtain ⟨vs, st', hrec, hlen, hstack, hg, hp, hn, hlast⟩ :=
      visitBlockNodes_simple (e₀ :: rest₀) m st [] hs
        (fun e he => by have := hf e he; omega)
        (by simp only [List.length_cons] at hf₀ ⊢; omega)
    refine ⟨vs, push (.list vs) st', ?_, ?_, hlen, hg, hp, hn, hlast⟩
    · show (do let pr ← visitBlockNodes m (e₀ :: rest₀) st []
               Except.ok (push (.list pr.1) pr.2)) = Except.ok (push (.list vs) st')
      rw [hrec]
      simp [except_ok_bind]
    · simp [push, hstack]


/-- C2 witness: the block `[1.0, 2.0]` lowered in the fresh generator. -/
theorem c2_block_pushes_value_list_witness :
    ∃ (vs : List IRValue) (st' : CGState),
      visitBlockStmt 10 [Expr.floatE 1, Expr.floatE 2] initState = .ok st' ∧
      st'.resultStack = .list vs :: initState.resultStack ∧
      vs.length = 2 ∧
      st'.globals = initState.globals ∧
      st'.functionProtos = initState.functionProtos ∧
      st'.namedValues = initState.namedValues ∧
      (∀ q, [Expr.floatE 1, Expr.floatE 2].getLast? = some (.floatE q) →
        vs.getLast? = some (.constFloat q)) :=
  c2_block_pushes_value_list [Expr.floatE 1, Expr.floatE 2] initState 10
    (List.cons_ne_nil _ _)
    (by
      intro e he
      simp only [List.mem_cons, List.not_mem_nil, or_false] at he
      rcases he with rfl | rfl
      · exact SimpleExpr.float 1
      · exact SimpleExpr.float 2)
    (by
      intro e he
      simp only [List.mem_cons, List.not_mem_nil, or_false] at he
      rcases he with rfl | rfl <;> decide)


end Arx
